import Mathlib

/-!
# Verification of the block-assembly pipeline

A shallow embedding of the Go block-assembly program (two near-duplicate
revisions; the revision with header hashing and zeroed coinbase placeholders
is the canonical one) together with proofs of its specified properties.

Modelling conventions:
* Go byte slices are `List Nat`, each element a byte value (< 256 by
  construction of every operation that produces them).
* Go `uint32` / `uint64` fields are `Nat`; Go `int` (used only for
  transaction values and prevout indices) is `Int`.  Overflow is immaterial
  for the quantities involved (the spec bounds values far below 2^63).
* The fixed `[32]byte` fields of the header are `List Nat` with explicit
  length-32 side conditions where a claim needs them.
* The `DifficultyTarget` string is carried as its raw text bytes, which is
  exactly how the serializer consumes it (`[]byte(header.DifficultyTarget)`).
* A Go nil slice and an empty slice are distinguished only where the
  distinction is observable here: the `witness` field of an input, which
  `encoding/json` renders as `null` when nil.  It is `Option (List String)`,
  `none` standing for Go's nil.
* Go panics (out-of-range indexing) are modelled by `Option`-valued
  functions returning `none`; Go `error` returns are `Except`.
-/

/-- Prevout: the snapshot of the output spent by an input, as in the source
`Prevout` struct. -/
structure Prevout where
  ScriptPubKey : String
  ScriptPubKeyASM : String
  ScriptPubKeyType : String
  ScriptPubKeyAddr : String
  Value : Int
deriving DecidableEq, Repr

/-- TxOutput: identical shape to `Prevout`, as in the source. -/
structure TxOutput where
  ScriptPubKey : String
  ScriptPubKeyASM : String
  ScriptPubKeyType : String
  ScriptPubKeyAddr : String
  Value : Int
deriving DecidableEq, Repr

/-- TxInput, as in the source `TxInput` struct.  `Witness` is `none` for a
Go nil slice (the coinbase input's witness). -/
structure TxInput where
  Txid : String
  Vout : Int
  ScriptSig : String
  Witness : Option (List String)
  IsCoinbase : Bool
  Sequence : Nat
  PrevOut : Prevout
deriving DecidableEq, Repr

/-- Transaction, as in the source `Transaction` struct. -/
structure Transaction where
  Version : Nat
  Locktime : Nat
  Vin : List TxInput
  Vout : List TxOutput
deriving DecidableEq, Repr

/-- BlockHeader, as in the source.  The two hash fields are byte lists whose
length-32 invariant is carried as hypotheses; the difficulty target is its
raw text bytes. -/
structure BlockHeader where
  Version : Nat
  PreviousBlockHash : List Nat
  MerkleRoot : List Nat
  Timestamp : Nat
  DifficultyTarget : List Nat
  Nonce : Nat
deriving DecidableEq, Repr

/-- Block, as in the source `Block` struct. -/
structure Block where
  Size : Nat
  Header : BlockHeader
  TransactionCount : Nat
  Transactions : List Transaction
deriving DecidableEq, Repr

/-- Function `ValidateTransaction` from the source: sums the inputs' prevout values
and the outputs' values and accepts exactly when the input total strictly
exceeds the output total. -/
def ValidateTransaction (tx : Transaction) : Bool :=
  let input : Int := tx.Vin.foldl (fun acc vin => acc + vin.PrevOut.Value) 0
  let output : Int := tx.Vout.foldl (fun acc vout => acc + vout.Value) 0
  decide (input > output)

/-- Folding `+ f x` over a list starting from `init` is `init` plus the sum
of the mapped list. -/
theorem foldl_add_eq_sum {α : Type} (f : α → Int) (l : List α) (init : Int) :
    l.foldl (fun acc x => acc + f x) init = init + (l.map f).sum := by
  induction l generalizing init with
  | nil => simp
  | cons x xs ih => simp [List.foldl_cons, ih (init + f x)]; ring

/-- C1: `ValidateTransaction tx` is `true` iff the sum of the inputs'
prevout values strictly exceeds the sum of the outputs' values; in
particular equal totals validate to `false`. -/
theorem validateTransaction_iff (tx : Transaction) :
    (ValidateTransaction tx = true ↔
      (tx.Vout.map TxOutput.Value).sum < (tx.Vin.map (fun vin => vin.PrevOut.Value)).sum) ∧
    ((tx.Vin.map (fun vin => vin.PrevOut.Value)).sum = (tx.Vout.map TxOutput.Value).sum →
      ValidateTransaction tx = false) := by
  have hin := foldl_add_eq_sum (fun vin : TxInput => vin.PrevOut.Value) tx.Vin 0
  have hout := foldl_add_eq_sum TxOutput.Value tx.Vout 0
  constructor
  · simp [ValidateTransaction, hin, hout]
  · intro heq
    simp [ValidateTransaction, hin, hout, heq]

/-- A concrete transaction whose input and output totals are equal. -/
def equalTotalsTx : Transaction :=
  { Version := 1
    Locktime := 0
    Vin := [{ Txid := "aa", Vout := 0, ScriptSig := "", Witness := some []
              IsCoinbase := false, Sequence := 0
              PrevOut := { ScriptPubKey := "", ScriptPubKeyASM := ""
                           ScriptPubKeyType := "", ScriptPubKeyAddr := ""
                           Value := 4000 } }]
    Vout := [{ ScriptPubKey := "", ScriptPubKeyASM := ""
               ScriptPubKeyType := "", ScriptPubKeyAddr := ""
               Value := 4000 }] }

/-- Witness for C1: a transaction with equal totals is rejected. -/
theorem validateTransaction_iff_witness : ValidateTransaction equalTotalsTx = false :=
  (validateTransaction_iff equalTotalsTx).2 (by decide)

/-- Function `serializeUint32` from the source: the four little-endian bytes of a
32-bit value (for a Go `uint32` argument the value is below 2^32, so the
fourth byte is `value / 2^24`). -/
def serializeUint32 (value : Nat) : List Nat :=
  [value % 256, value / 256 % 256, value / 65536 % 256, value / 16777216 % 256]

/-- Function `SerializeBlockHeader` from the source: the concatenation of the six
header fields in declaration order, with the two hash fields and the
difficulty-target text appended as raw bytes. -/
def SerializeBlockHeader (header : BlockHeader) : List Nat :=
  serializeUint32 header.Version
    ++ header.PreviousBlockHash
    ++ header.MerkleRoot
    ++ serializeUint32 header.Timestamp
    ++ header.DifficultyTarget
    ++ serializeUint32 header.Nonce

/-- C4: header serialization is the padding-free concatenation of the six
fields in declaration order, and its length is 76 plus the byte length of
the difficulty-target text (given the two 32-byte hash fields). -/
theorem serializeBlockHeader_layout (header : BlockHeader)
    (hprev : header.PreviousBlockHash.length = 32)
    (hmerkle : header.MerkleRoot.length = 32) :
    SerializeBlockHeader header =
      serializeUint32 header.Version ++ header.PreviousBlockHash
        ++ header.MerkleRoot ++ serializeUint32 header.Timestamp
        ++ header.DifficultyTarget ++ serializeUint32 header.Nonce ∧
    (SerializeBlockHeader header).length = 76 + header.DifficultyTarget.length := by
  refine ⟨rfl, ?_⟩
  simp [SerializeBlockHeader, serializeUint32, hprev, hmerkle]
  ring

/-- A concrete header with 32-byte hash fields and a 64-byte target text. -/
def sampleHeader : BlockHeader :=
  { Version := 1
    PreviousBlockHash := List.replicate 32 0
    MerkleRoot := List.replicate 32 0
    Timestamp := 1712345678
    DifficultyTarget :=
      [48, 48, 48, 48, 102, 102, 102, 102] ++ List.replicate 56 48
    Nonce := 0 }

/-- Witness for C4: the layout and length facts at a concrete header. -/
theorem serializeBlockHeader_layout_witness :
    SerializeBlockHeader sampleHeader =
      serializeUint32 sampleHeader.Version ++ sampleHeader.PreviousBlockHash
        ++ sampleHeader.MerkleRoot ++ serializeUint32 sampleHeader.Timestamp
        ++ sampleHeader.DifficultyTarget ++ serializeUint32 sampleHeader.Nonce ∧
    (SerializeBlockHeader sampleHeader).length = 76 + sampleHeader.DifficultyTarget.length :=
  serializeBlockHeader_layout sampleHeader (by decide) (by decide)

/-- Right-rotation of a 32-bit word (argument below 2^32). -/
def rotr32 (n x : Nat) : Nat :=
  x / 2 ^ n + x % 2 ^ n * 2 ^ (32 - n)

/-- Logical right shift. -/
def shr32 (n x : Nat) : Nat := x / 2 ^ n

def sha256Ch (x y z : Nat) : Nat := (x &&& y) ^^^ ((x ^^^ 0xffffffff) &&& z)

def sha256Maj (x y z : Nat) : Nat := (x &&& y) ^^^ (x &&& z) ^^^ (y &&& z)

def bigSigma0 (x : Nat) : Nat := rotr32 2 x ^^^ rotr32 13 x ^^^ rotr32 22 x

def bigSigma1 (x : Nat) : Nat := rotr32 6 x ^^^ rotr32 11 x ^^^ rotr32 25 x

def smallSigma0 (x : Nat) : Nat := rotr32 7 x ^^^ rotr32 18 x ^^^ shr32 3 x

def smallSigma1 (x : Nat) : Nat := rotr32 17 x ^^^ rotr32 19 x ^^^ shr32 10 x

/-- The 64 SHA-256 round constants. -/
def sha256K : List Nat :=
  [1116352408, 1899447441, 3049323471, 3921009573, 961987163,
   1508970993, 2453635748, 2870763221, 3624381080, 310598401,
   607225278, 1426881987, 1925078388, 2162078206, 2614888103,
   3248222580, 3835390401, 4022224774, 264347078, 604807628,
   770255983, 1249150122, 1555081692, 1996064986, 2554220882,
   2821834349, 2952996808, 3210313671, 3336571891, 3584528711,
   113926993, 338241895, 666307205, 773529912, 1294757372,
   1396182291, 1695183700, 1986661051, 2177026350, 2456956037,
   2730485921, 2820302411, 3259730800, 3345764771, 3516065817,
   3600352804, 4094571909, 275423344, 430227734, 506948616,
   659060556, 883997877, 958139571, 1322822218, 1537002063,
   1747873779, 1955562222, 2024104815, 2227730452, 2361852424,
   2428436474, 2756734187, 3204031479, 3329325298]

/-- The eight 32-bit working registers of the compression function. -/
structure Sha256State where
  a : Nat
  b : Nat
  c : Nat
  d : Nat
  e : Nat
  f : Nat
  g : Nat
  h : Nat
deriving DecidableEq, Repr

def sha256Init : Sha256State :=
  ⟨1779033703, 3144134277, 1013904242, 2773480762,
   1359893119, 2600822924, 528734635, 1541459225⟩

/-- The eight big-endian bytes of a 64-bit length value. -/
def beBytes8 (n : Nat) : List Nat :=
  [n / 2 ^ 56 % 256, n / 2 ^ 48 % 256, n / 2 ^ 40 % 256, n / 2 ^ 32 % 256,
   n / 2 ^ 24 % 256, n / 2 ^ 16 % 256, n / 2 ^ 8 % 256, n % 256]

/-- The four big-endian bytes of a 32-bit word. -/
def beBytes4 (w : Nat) : List Nat :=
  [w / 2 ^ 24 % 256, w / 2 ^ 16 % 256, w / 2 ^ 8 % 256, w % 256]

/-- SHA-256 padding: a `0x80` byte, zeros to 56 mod 64, and the bit length
as eight big-endian bytes. -/
def sha256Pad (msg : List Nat) : List Nat :=
  let L := msg.length
  msg ++ [0x80] ++ List.replicate ((64 - (L + 9) % 64) % 64) 0 ++ beBytes8 (L * 8)

/-- Split a byte list into 64-byte blocks. -/
def chunks64 (l : List Nat) : List (List Nat) :=
  if h : l = [] then []
  else l.take 64 :: chunks64 (l.drop 64)
termination_by l.length
decreasing_by
  have : 0 < l.length := List.length_pos.mpr h
  simp only [List.length_drop]
  omega

/-- Combine bytes four at a time into big-endian 32-bit words. -/
def beWords : List Nat → List Nat
  | b0 :: b1 :: b2 :: b3 :: rest =>
      (b0 * 2 ^ 24 + b1 * 2 ^ 16 + b2 * 2 ^ 8 + b3) :: beWords rest
  | _ => []

/-- Extend a 16-word message schedule by `n` further words. -/
def extendSchedule : Nat → List Nat → List Nat
  | 0, w => w
  | n + 1, w =>
      let t := w.length
      let next :=
        (smallSigma1 (w.getD (t - 2) 0) + w.getD (t - 7) 0 +
          smallSigma0 (w.getD (t - 15) 0) + w.getD (t - 16) 0) % 2 ^ 32
      extendSchedule n (w ++ [next])

/-- One round of the SHA-256 compression function. -/
def sha256Round (s : Sha256State) (kw : Nat × Nat) : Sha256State :=
  let t1 := (s.h + bigSigma1 s.e + sha256Ch s.e s.f s.g + kw.1 + kw.2) % 2 ^ 32
  let t2 := (bigSigma0 s.a + sha256Maj s.a s.b s.c) % 2 ^ 32
  { a := (t1 + t2) % 2 ^ 32, b := s.a, c := s.b, d := s.c
    e := (s.d + t1) % 2 ^ 32, f := s.e, g := s.f, h := s.g }

/-- Process one 64-byte block: run 64 rounds and add the result into the
chaining state, word-wise mod 2^32. -/
def sha256Block (h : Sha256State) (block : List Nat) : Sha256State :=
  let w := extendSchedule 48 (beWords block)
  let s := (sha256K.zip w).foldl sha256Round h
  { a := (h.a + s.a) % 2 ^ 32, b := (h.b + s.b) % 2 ^ 32
    c := (h.c + s.c) % 2 ^ 32, d := (h.d + s.d) % 2 ^ 32
    e := (h.e + s.e) % 2 ^ 32, f := (h.f + s.f) % 2 ^ 32
    g := (h.g + s.g) % 2 ^ 32, h := (h.h + s.h) % 2 ^ 32 }

/-- The 32 digest bytes of a final state. -/
def sha256StateBytes (s : Sha256State) : List Nat :=
  beBytes4 s.a ++ beBytes4 s.b ++ beBytes4 s.c ++ beBytes4 s.d ++
    beBytes4 s.e ++ beBytes4 s.f ++ beBytes4 s.g ++ beBytes4 s.h

/-- SHA-256 of a byte list: pad, process each 64-byte block, emit the
final state big-endian. -/
def sha256 (msg : List Nat) : List Nat :=
  sha256StateBytes ((chunks64 (sha256Pad msg)).foldl sha256Block sha256Init)

/-- Function `HashBlockHeader` from the source: SHA-256 applied twice in sequence,
the second pass over the raw 32 digest bytes of the first. -/
def HashBlockHeader (serializedHeader : List Nat) : List Nat :=
  let hash := sha256 serializedHeader
  sha256 hash

/-- The digest bytes of any state are 32 bytes. -/
theorem sha256StateBytes_length (s : Sha256State) :
    (sha256StateBytes s).length = 32 := by
  simp [sha256StateBytes, beBytes4]

/-- SHA-256 always emits 32 bytes. -/
theorem sha256_length (msg : List Nat) : (sha256 msg).length = 32 := by
  simp [sha256, sha256StateBytes_length]

/-- C5: the header digest is the double SHA-256 — the second round taken
over the raw digest bytes of the first — and it is 32 bytes long. -/
theorem hashBlockHeader_spec (b : List Nat) :
    HashBlockHeader b = sha256 (sha256 b) ∧ (HashBlockHeader b).length = 32 :=
  ⟨rfl, sha256_length (sha256 b)⟩

/-- Function `CreateCoinbaseTransaction` from the canonical revision: version 1,
locktime 0, one input referencing no previous output (index -1, empty txid,
nil witness, sequence 0xFFFFFFFF, zero-valued prevout) and one output with
placeholder (empty) script fields carrying this core's reward value, 0. -/
def CreateCoinbaseTransaction : Transaction :=
  { Version := 1
    Locktime := 0
    Vin := [{ Txid := ""
              Vout := -1
              ScriptSig := ""
              Witness := none
              IsCoinbase := true
              Sequence := 0xFFFFFFFF
              PrevOut := { ScriptPubKey := ""
                           ScriptPubKeyASM := ""
                           ScriptPubKeyType := ""
                           ScriptPubKeyAddr := ""
                           Value := 0 } }]
    Vout := [{ ScriptPubKey := ""
               ScriptPubKeyASM := ""
               ScriptPubKeyType := ""
               ScriptPubKeyAddr := ""
               Value := 0 }] }

/-- C3: the synthesized coinbase transaction has version 1, locktime 0,
exactly one input with previous index -1, coinbase flag set, sequence
0xFFFFFFFF and zero prevout value, and exactly one output whose script
fields are placeholders and whose value is the reward this core grants
(zero, per the canonical revision's zeroed placeholders). -/
theorem createCoinbaseTransaction_spec :
    CreateCoinbaseTransaction.Version = 1 ∧
    CreateCoinbaseTransaction.Locktime = 0 ∧
    CreateCoinbaseTransaction.Vin.length = 1 ∧
    CreateCoinbaseTransaction.Vin.map TxInput.Vout = [-1] ∧
    CreateCoinbaseTransaction.Vin.map TxInput.IsCoinbase = [true] ∧
    CreateCoinbaseTransaction.Vin.map TxInput.Sequence = [0xFFFFFFFF] ∧
    CreateCoinbaseTransaction.Vin.map (fun vin => vin.PrevOut.Value) = [0] ∧
    CreateCoinbaseTransaction.Vout.length = 1 ∧
    CreateCoinbaseTransaction.Vout.map TxOutput.Value = [0] ∧
    CreateCoinbaseTransaction.Vout.map TxOutput.ScriptPubKey = [""] := by
  decide

/-- The byte text of the fixed difficulty target the assembler installs
("0000ffff" followed by 56 "0" characters). -/
def mainDifficultyTarget : List Nat :=
  [48, 48, 48, 48, 102, 102, 102, 102] ++ List.replicate 56 48

/-- The block-assembly steps of `main`: prepend a fresh coinbase to the
accepted transactions, set the count, and populate the header (version 1,
wall-clock timestamp passed in from the environment, fixed difficulty
target, zero nonce, zero-filled hash fields).  The size field is filled
later by the size-accounting step. -/
def assembleBlock (timestamp : Nat) (validTransactions : List Transaction) : Block :=
  let blockTransactions := CreateCoinbaseTransaction :: validTransactions
  { Size := 0
    Header := { Version := 1
                PreviousBlockHash := List.replicate 32 0
                MerkleRoot := List.replicate 32 0
                Timestamp := timestamp % 2 ^ 32
                DifficultyTarget := mainDifficultyTarget
                Nonce := 0 }
    TransactionCount := blockTransactions.length
    Transactions := blockTransactions }

/-- The coinbase never passes the validator: both totals are zero. -/
theorem validate_coinbase_false : ValidateTransaction CreateCoinbaseTransaction = false := by
  decide

/-- C2: for every validator-accepted list, the assembled transaction
sequence is the coinbase prepended to that list — the coinbase appears
exactly once, at index 0 — and the transaction count is one more than the
number of accepted transactions. -/
theorem assembleBlock_coinbase_first (timestamp : Nat)
    (accepted : List Transaction)
    (hacc : ∀ tx ∈ accepted, ValidateTransaction tx = true) :
    (assembleBlock timestamp accepted).Transactions =
      [CreateCoinbaseTransaction] ++ accepted ∧
    (assembleBlock timestamp accepted).Transactions.count CreateCoinbaseTransaction = 1 ∧
    (assembleBlock timestamp accepted).Transactions.head? = some CreateCoinbaseTransaction ∧
    (assembleBlock timestamp accepted).TransactionCount = 1 + accepted.length := by
  have hnot : CreateCoinbaseTransaction ∉ accepted := by
    intro hmem
    have := hacc CreateCoinbaseTransaction hmem
    rw [validate_coinbase_false] at this
    exact Bool.false_ne_true this
  refine ⟨rfl, ?_, rfl, by simp [assembleBlock]; ring⟩
  simp [assembleBlock, List.count_cons, List.count_eq_zero.mpr hnot]

/-- Witness for C2: the empty accepted list gives a block holding exactly
the coinbase, counted as one transaction. -/
theorem assembleBlock_coinbase_first_witness :
    (assembleBlock 0 []).Transactions = [CreateCoinbaseTransaction] ++ [] ∧
    (assembleBlock 0 []).Transactions.count CreateCoinbaseTransaction = 1 ∧
    (assembleBlock 0 []).Transactions.head? = some CreateCoinbaseTransaction ∧
    (assembleBlock 0 []).TransactionCount = 1 + List.length ([] : List Transaction) :=
  assembleBlock_coinbase_first 0 [] (by simp)

/-- A lowercase hexadecimal digit character. -/
def hexDigitChar (n : Nat) : Char :=
  if n < 10 then Char.ofNat (48 + n) else Char.ofNat (87 + n)

/-- Lowercase hex encoding of a byte list, as Go's `hex.EncodeToString`. -/
def hexEncodeBytes (bytes : List Nat) : String :=
  String.mk (bytes.foldr
    (fun b acc => hexDigitChar (b / 16 % 16) :: hexDigitChar (b % 16) :: acc) [])

/-- Two lowercase hex digits of a byte. -/
def hexByte (n : Nat) : String :=
  String.mk [hexDigitChar (n / 16 % 16), hexDigitChar (n % 16)]

/-- One character of a JSON string as Go's `encoding/json` emits it (HTML
escaping on, the default for `json.Marshal`): quote, backslash, newline,
carriage return and tab get two-character escapes; the other control
characters and the HTML-sensitive three get `\u00xx`; the two line
separators get their `\u202x` forms; everything else is literal. -/
def jsonEscapeChar (c : Char) : String :=
  if c = Char.ofNat 34 then "\\\""
  else if c = Char.ofNat 92 then "\\\\"
  else if c = Char.ofNat 10 then "\\n"
  else if c = Char.ofNat 13 then "\\r"
  else if c = Char.ofNat 9 then "\\t"
  else if c.toNat < 32 || c = '<' || c = '>' || c = '&' then "\\u00" ++ hexByte c.toNat
  else if c.toNat = 0x2028 then "\\u2028"
  else if c.toNat = 0x2029 then "\\u2029"
  else String.mk [c]

/-- A JSON string literal for `s`. -/
def jsonString (s : String) : String :=
  "\"" ++ String.join (s.data.map jsonEscapeChar) ++ "\""

/-- The JSON rendering of a prevout, fields in struct-tag order. -/
def marshalPrevout (p : Prevout) : String :=
  "\x7b\"scriptpubkey\":" ++ jsonString p.ScriptPubKey
    ++ ",\"scriptpubkey_asm\":" ++ jsonString p.ScriptPubKeyASM
    ++ ",\"scriptpubkey_type\":" ++ jsonString p.ScriptPubKeyType
    ++ ",\"scriptpubkey_address\":" ++ jsonString p.ScriptPubKeyAddr
    ++ ",\"value\":" ++ toString p.Value ++ "\x7d"

/-- The JSON rendering of an output, fields in struct-tag order. -/
def marshalTxOutput (o : TxOutput) : String :=
  "\x7b\"scriptpubkey\":" ++ jsonString o.ScriptPubKey
    ++ ",\"scriptpubkey_asm\":" ++ jsonString o.ScriptPubKeyASM
    ++ ",\"scriptpubkey_type\":" ++ jsonString o.ScriptPubKeyType
    ++ ",\"scriptpubkey_address\":" ++ jsonString o.ScriptPubKeyAddr
    ++ ",\"value\":" ++ toString o.Value ++ "\x7d"

/-- The JSON rendering of a witness list; a Go nil slice renders `null`. -/
def marshalWitnessField : Option (List String) → String
  | none => "null"
  | some ws => "[" ++ String.intercalate "," (ws.map jsonString) ++ "]"

/-- The JSON rendering of an input, fields in struct-tag order. -/
def marshalTxInput (i : TxInput) : String :=
  "\x7b\"txid\":" ++ jsonString i.Txid
    ++ ",\"vout\":" ++ toString i.Vout
    ++ ",\"scriptsig\":" ++ jsonString i.ScriptSig
    ++ ",\"witness\":" ++ marshalWitnessField i.Witness
    ++ ",\"is_coinbase\":" ++ (if i.IsCoinbase then "true" else "false")
    ++ ",\"sequence\":" ++ toString i.Sequence
    ++ ",\"prevout\":" ++ marshalPrevout i.PrevOut ++ "\x7d"

/-- Rendering `json.Marshal` gives a transaction: the four fields in struct-tag order.
(The nil/empty distinction for the `vin`/`vout` slices themselves is not
modelled; every transaction this program marshals has both non-empty.) -/
def marshalTransaction (tx : Transaction) : String :=
  "\x7b\"version\":" ++ toString tx.Version
    ++ ",\"locktime\":" ++ toString tx.Locktime
    ++ ",\"vin\":[" ++ String.intercalate "," (tx.Vin.map marshalTxInput)
    ++ "],\"vout\":[" ++ String.intercalate "," (tx.Vout.map marshalTxOutput)
    ++ "]\x7d"

/-- The writer's txid loop: one `Txid ++ "\n"` line per transaction, `none`
on the first transaction with no input (the `tx.Vin[0]` panic). -/
def collectTxidLines : List Transaction → Option (List String)
  | [] => some []
  | tx :: rest =>
    match tx.Vin.head? with
    | none => none
    | some vin => (collectTxidLines rest).map fun ls => (vin.Txid ++ "\n") :: ls

/-- Function `WriteBlockToOutputFile` from the canonical revision, as the text it
writes to `output.txt`: the recomputed double-SHA-256 of the serialized
header in lowercase hex, the JSON of the transaction at index 0, then one
txid line per remaining transaction.  The `hash` parameter is accepted and
ignored, exactly as in the source; an out-of-range index (no transaction
at 0, or a remaining transaction with no input) is `none`. -/
def WriteBlockToOutputFile (block : Block) (hash : List Nat) : Option String :=
  let blockHeaderBytes := SerializeBlockHeader block.Header
  let blockHeaderHash := sha256 (sha256 blockHeaderBytes)
  match block.Transactions with
  | [] => none
  | coinbase :: rest =>
    (collectTxidLines rest).map
      fun idLines =>
        hexEncodeBytes blockHeaderHash ++ "\n"
          ++ marshalTransaction coinbase ++ "\n"
          ++ String.join idLines

/-- The report layout as the spec describes it: one hex-digest line, one
coinbase-JSON line, then the first-input txid of each non-coinbase
transaction, one per line, in order. -/
def reportLayoutSpec (block : Block) : String :=
  hexEncodeBytes (sha256 (sha256 (SerializeBlockHeader block.Header))) ++ "\n"
    ++ (match block.Transactions.head? with
        | some coinbase => marshalTransaction coinbase
        | none => "") ++ "\n"
    ++ String.join (block.Transactions.tail.map fun tx : Transaction =>
        ((tx.Vin.head?.map fun vin => vin.Txid).getD "") ++ "\n")

/-- Collecting the txid lines succeeds and is the per-transaction map when
every transaction has an input. -/
theorem collectTxidLines_eq (l : List Transaction) (h : ∀ tx ∈ l, tx.Vin ≠ []) :
    collectTxidLines l =
      some (l.map fun tx : Transaction =>
        ((tx.Vin.head?.map fun vin => vin.Txid).getD "") ++ "\n") := by
  induction l with
  | nil => rfl
  | cons tx rest ih =>
    obtain ⟨vin, vins, hv⟩ : ∃ v vs, tx.Vin = v :: vs := by
      cases hVin : tx.Vin with
      | nil => exact absurd hVin (h tx (List.mem_cons_self tx rest))
      | cons v vs => exact ⟨v, vs, rfl⟩
    have hrest := ih fun t ht => h t (List.mem_cons_of_mem _ ht)
    simp [collectTxidLines, hv, hrest]

/-- C6: for a block whose transactions (there is at least the one at index
0) all have an input, the writer emits exactly the digest line, the
coinbase JSON line, and one first-input txid line per non-coinbase
transaction, in assembled order, and nothing else. -/
theorem writeBlock_layout (block : Block) (hash : List Nat)
    (hne : block.Transactions ≠ [])
    (hvin : ∀ tx ∈ block.Transactions, tx.Vin ≠ []) :
    WriteBlockToOutputFile block hash = some (reportLayoutSpec block) := by
  cases hb : block.Transactions with
  | nil => exact absurd hb hne
  | cons coinbase rest =>
    have hrest : ∀ tx ∈ rest, tx.Vin ≠ [] := fun t ht =>
      hvin t (hb ▸ List.mem_cons_of_mem _ ht)
    simp [WriteBlockToOutputFile, reportLayoutSpec, hb, collectTxidLines_eq rest hrest]

/-- A concrete single-transaction block for the writer witnesses. -/
def singleTxBlock : Block :=
  { Size := 0
    Header := sampleHeader
    TransactionCount := 1
    Transactions := [equalTotalsTx] }

/-- Witness for C6: the writer's output at a concrete block. -/
theorem writeBlock_layout_witness :
    WriteBlockToOutputFile singleTxBlock [] = some (reportLayoutSpec singleTxBlock) :=
  writeBlock_layout singleTxBlock [] (by decide) (by decide)

/-- C10: the writer's output never depends on the digest passed in as its
`hash` argument — it recomputes the double SHA-256 of the serialized
header from the block itself and ignores the parameter. -/
theorem writeBlock_ignores_hash_arg (block : Block) (h₁ h₂ : List Nat) :
    WriteBlockToOutputFile block h₁ = WriteBlockToOutputFile block h₂ := rfl

/-- The validation loop of `main`: accepted transactions are collected in
order; each rejected transaction is reported through a message that
dereferences its first input's txid — `none` models the `tx.Vin[0]` panic
when a rejected transaction has no input. -/
def filterValidTransactions : List Transaction → Option (List Transaction × List String)
  | [] => some ([], [])
  | tx :: rest =>
    if ValidateTransaction tx then
      (filterValidTransactions rest).map fun vr => (tx :: vr.1, vr.2)
    else
      match tx.Vin.head? with
      | none => none
      | some vin =>
        (filterValidTransactions rest).map fun vr =>
          (vr.1, ("Invalid transaction " ++ vin.Txid) :: vr.2)

/-- A transaction with no inputs (and no outputs), which the validator
rejects and whose rejection report then indexes out of range. -/
def noInputTx : Transaction :=
  { Version := 1, Locktime := 0, Vin := [], Vout := [] }

/-- C9: every first-input dereference of the pipeline — the rejection
report in the validation loop and the writer's txid lines — stays in
bounds when every processed transaction has at least one input; dropping
that precondition, a zero-input transaction makes the access go out of
range (the `none` outcome). -/
theorem firstInput_deref_safety :
    (∀ txs : List Transaction, (∀ tx ∈ txs, tx.Vin ≠ []) →
      (filterValidTransactions txs).isSome = true) ∧
    (∀ (block : Block) (hash : List Nat), block.Transactions ≠ [] →
      (∀ tx ∈ block.Transactions, tx.Vin ≠ []) →
      (WriteBlockToOutputFile block hash).isSome = true) ∧
    (∃ tx : Transaction, tx.Vin = [] ∧ filterValidTransactions [tx] = none) := by
  refine ⟨?_, ?_, ⟨noInputTx, rfl, rfl⟩⟩
  · intro txs h
    induction txs with
    | nil => rfl
    | cons tx rest ih =>
      have hrest := ih fun t ht => h t (List.mem_cons_of_mem _ ht)
      obtain ⟨vr, hvr⟩ := Option.isSome_iff_exists.mp hrest
      by_cases hval : ValidateTransaction tx
      · simp [filterValidTransactions, hval, hvr]
      · obtain ⟨vin, vins, hv⟩ : ∃ v vs, tx.Vin = v :: vs := by
          cases hVin : tx.Vin with
          | nil => exact absurd hVin (h tx (List.mem_cons_self tx rest))
          | cons v vs => exact ⟨v, vs, rfl⟩
        simp [filterValidTransactions, hval, hv, hvr]
  · intro block hash hne hvin
    cases hb : block.Transactions with
    | nil => exact absurd hb hne
    | cons coinbase rest =>
      have hrest : ∀ tx ∈ rest, tx.Vin ≠ [] := fun t ht =>
        hvin t (hb ▸ List.mem_cons_of_mem _ ht)
      simp [WriteBlockToOutputFile, hb, collectTxidLines_eq rest hrest]

/-- Witness for C9: the in-bounds conclusions at a concrete transaction
list and a concrete block. -/
theorem firstInput_deref_safety_witness :
    (filterValidTransactions [equalTotalsTx]).isSome = true ∧
    (WriteBlockToOutputFile singleTxBlock []).isSome = true :=
  ⟨firstInput_deref_safety.1 [equalTotalsTx] (by decide),
   firstInput_deref_safety.2.1 singleTxBlock [] (by decide) (by decide)⟩

/-- Folding `+ c` over a list adds the length times the constant. -/
theorem foldl_add_const {α : Type} (c : Nat) (l : List α) (init : Nat) :
    l.foldl (fun acc _ => acc + c) init = init + l.length * c := by
  induction l generalizing init with
  | nil => simp
  | cons x xs ih => simp [List.foldl_cons, ih (init + c)]; ring

/-- The size-accounting step of `main`: start from the serialized header's
length plus 8 bytes for the transaction-count field and add, for each
transaction in the block, the transaction's in-memory footprint.  Go's
`unsafe.Sizeof` depends only on the static type, so the per-transaction
footprint is a parameter here, one value for all transactions. -/
def computeBlockSize (sizeofTx : Nat) (block : Block) : Nat :=
  block.Transactions.foldl (fun blockSize _ => blockSize + sizeofTx)
    ((SerializeBlockHeader block.Header).length + 8)

/-- C7: the computed block size is the serialized header's byte length,
plus 8 for the transaction-count field, plus the sum over every
transaction in the block (coinbase included) of its in-memory footprint. -/
theorem computeBlockSize_spec (sizeofTx : Nat) (block : Block) :
    computeBlockSize sizeofTx block =
      (SerializeBlockHeader block.Header).length + 8 +
        (block.Transactions.map fun _ => sizeofTx).sum := by
  simp [computeBlockSize, foldl_add_const, List.map_const, List.sum_replicate,
    smul_eq_mul, Nat.mul_comm]

/-- A directory entry as the loader sees it: its name, whether it is a
directory, and — for the files the loader reads — the raw record blob. -/
structure DirEntry where
  name : String
  isDir : Bool
  content : String
deriving DecidableEq, Repr

/-- Predicate `strings.HasSuffix`: `s` ends with `suffixStr` (character-wise; the
names this program tests are plain ASCII). -/
def hasSuffix (s suffixStr : String) : Bool :=
  decide (s.data.drop (s.data.length - suffixStr.data.length) = suffixStr.data)

/-- The loader's eligibility test: a non-directory whose name carries the
structured-record suffix. -/
def isRecordFile (file : DirEntry) : Bool :=
  !file.isDir && hasSuffix file.name ".json"

/-- Function `LoadTransactionsFromFolder` from the source: walk the entries in
order, skip directories and wrong-extension entries, decode each eligible
blob with the collaborator's decoder (a parameter here: `encoding/json` is
external), append in order, and return the decoder's error — discarding
everything decoded so far — on the first malformed blob. -/
def LoadTransactionsFromFolder (decode : String → Except String Transaction) :
    List DirEntry → Except String (List Transaction)
  | [] => Except.ok []
  | file :: rest =>
    if isRecordFile file then
      match decode file.content with
      | Except.error e => Except.error e
      | Except.ok tx =>
        match LoadTransactionsFromFolder decode rest with
        | Except.error e => Except.error e
        | Except.ok txs => Except.ok (tx :: txs)
    else LoadTransactionsFromFolder decode rest

/-- C8: the loader returns the decoded transactions in supplied order,
skipping non-record entries (directories, wrong extensions) without error,
and aborts with the decoder's error — no partial result — at the first
malformed eligible blob. -/
theorem loadTransactions_spec (decode : String → Except String Transaction) :
    (∀ entries : List DirEntry,
      (∀ e ∈ entries, isRecordFile e = true → ∃ tx, decode e.content = Except.ok tx) →
      LoadTransactionsFromFolder decode entries =
        Except.ok (entries.filterMap fun e =>
          if isRecordFile e then (decode e.content).toOption else none)) ∧
    (∀ (good : List DirEntry) (bad : DirEntry) (rest : List DirEntry) (msg : String),
      isRecordFile bad = true → decode bad.content = Except.error msg →
      (∀ e ∈ good, isRecordFile e = true → ∃ tx, decode e.content = Except.ok tx) →
      LoadTransactionsFromFolder decode (good ++ bad :: rest) = Except.error msg) := by
  constructor
  · intro entries h
    induction entries with
    | nil => rfl
    | cons file rest ih =>
      have hrest := ih fun e he => h e (List.mem_cons_of_mem _ he)
      by_cases hrec : isRecordFile file = true
      · obtain ⟨tx, htx⟩ := h file (List.mem_cons_self file rest) hrec
        simp [LoadTransactionsFromFolder, hrec, htx, hrest, Except.toOption]
      · simp [LoadTransactionsFromFolder, hrec, hrest,
          Bool.not_eq_true _ ▸ hrec]
  · intro good bad rest msg hbadrec hbaderr hgood
    induction good with
    | nil => simp [LoadTransactionsFromFolder, hbadrec, hbaderr]
    | cons file gs ih =>
      have hrest := ih fun e he => hgood e (List.mem_cons_of_mem _ he)
      by_cases hrec : isRecordFile file = true
      · obtain ⟨tx, htx⟩ := hgood file (List.mem_cons_self file gs) hrec
        simp [LoadTransactionsFromFolder, hrec, htx, hrest]
      · simp [LoadTransactionsFromFolder, hrec, hrest]

/-- A decoder fixture: accepts the blob "good", rejects everything else. -/
def decodeSample : String → Except String Transaction := fun s =>
  if s = "good" then Except.ok equalTotalsTx
  else Except.error "invalid character looking for beginning of value"

/-- Entry fixtures: one record file, one directory, one wrong-extension
file, and one malformed record file. -/
def goodEntry : DirEntry := { name := "a.json", isDir := false, content := "good" }

def dirEntry : DirEntry := { name := "sub.json", isDir := true, content := "junk" }

def txtEntry : DirEntry := { name := "b.txt", isDir := false, content := "junk" }

def badEntry : DirEntry := { name := "c.json", isDir := false, content := "junk" }

/-- Witness for C8: both conclusions at concrete entry lists — a full
successful load that skips the directory and the wrong extension, and an
aborted load whose first eligible blob after the good ones is malformed. -/
theorem loadTransactions_spec_witness :
    LoadTransactionsFromFolder decodeSample [goodEntry, dirEntry, txtEntry] =
      Except.ok ([goodEntry, dirEntry, txtEntry].filterMap fun e =>
        if isRecordFile e then (decodeSample e.content).toOption else none) ∧
    LoadTransactionsFromFolder decodeSample ([goodEntry] ++ badEntry :: [txtEntry]) =
      Except.error "invalid character looking for beginning of value" :=
  ⟨(loadTransactions_spec decodeSample).1 [goodEntry, dirEntry, txtEntry]
      (by intro e he hrec
          fin_cases he
          · exact ⟨equalTotalsTx, rfl⟩
          · exact absurd hrec (by decide)
          · exact absurd hrec (by decide)),
   (loadTransactions_spec decodeSample).2 [goodEntry] badEntry [txtEntry] _
      (by decide) rfl
      (by intro e he hrec
          fin_cases he
          exact ⟨equalTotalsTx, rfl⟩)⟩
